import Mathlib

/-!
Verification development for the proposal lifecycle engine of the
Version_4 repository (orchestrator, approval gate, diff application,
twin sandbox, proposal generation).

Modelling conventions:
* Python strings are modelled as `List Char` (`Str`); `str s` injects a
  Lean string literal.
* The repository file tree is a flat map `Str → Option Str` from a
  relative path to a file content (`none` = the file does not exist).
  Directories are not modelled; every path is assumed to denote a
  regular-file location.  Orchestrator-owned bookkeeping files
  (`.evo_state.json`, `CHANGELOG.md`, the `logs/` ledgers) are modelled
  as separate fields of the orchestrator state, not as entries of this
  map.
* Python floats are modelled as rationals, SHA-256 as an explicit
  function argument `hash`, the LLM completion as an explicit response
  string, `json.loads` as an explicit partial parsing function, and
  `uuid4` as an explicit stream of fresh identifiers.
* Raised exceptions are modelled with `Except`; operations that can
  leave partial mutations behind before raising return the mutated
  state alongside the `Except` outcome.
-/

namespace Evo

/-- Python strings, modelled as lists of characters. -/
abbrev Str := List Char

/-- Inject a Lean string literal into the `Str` model. -/
def str (s : String) : Str := s.data

/-- Python whitespace characters (the ASCII part of `str.strip`). -/
def pySpace (c : Char) : Bool :=
  c = ' ' || c = '\t' || c = '\n' || c = '\x0d' || c = '\x0b' || c = '\x0c'

/-- Python `str.rstrip()`: drop trailing whitespace. -/
def rstripL (s : Str) : Str := (s.reverse.dropWhile pySpace).reverse

/-- Python `str.lstrip()`: drop leading whitespace. -/
def lstripL (s : Str) : Str := s.dropWhile pySpace

/-- Python `str.strip()`: drop whitespace at both ends. -/
def stripL (s : Str) : Str := rstripL (lstripL s)

/-- Python `str.startswith`. -/
def startsWithL (pre s : Str) : Bool := pre.isPrefixOf s

/-- Python `str.endswith`. -/
def endsWithL (suf s : Str) : Bool := suf.isSuffixOf s

/-- Python `str.lower()` (ASCII case folding). -/
def lowerL (s : Str) : Str := s.map Char.toLower

/-- Python `needle in hay` substring containment. -/
def containsSub (needle : Str) : Str → Bool
  | [] => needle.isEmpty
  | c :: rest => needle.isPrefixOf (c :: rest) || containsSub needle rest

/-- Worker for `splitlinesL`, accumulating the current line reversed. -/
def splitlinesGo : Str → Str → List Str
  | [], acc => if acc.isEmpty then [] else [acc.reverse]
  | '\n' :: rest, acc => acc.reverse :: splitlinesGo rest []
  | c :: rest, acc => splitlinesGo rest (c :: acc)

/-- Python `str.splitlines()` for texts whose line terminator is `\n`:
splits at every newline and does not produce a trailing empty line for a
terminal newline. -/
def splitlinesL (s : Str) : List Str := splitlinesGo s []

/-- Python `sep.join(parts)`. -/
def joinL (sep : Str) : List Str → Str
  | [] => []
  | [x] => x
  | x :: xs => x ++ sep ++ joinL sep xs

/-! ### Data model (src/core/models.py) -/

/-- Heuristic score of a proposal (`Score` in models.py).  Python floats
are modelled as rationals; the `meta` dictionary (only ever set to a
constant marker by the scoring agent) is omitted. -/
structure Score where
  clarity : ℚ
  impact : ℚ
  risk : ℚ
  effort : ℚ
deriving DecidableEq

/-- Composite score `(clarity + impact) - (risk + effort) / 2`. -/
def Score.composite (s : Score) : ℚ :=
  (s.clarity + s.impact) - (s.risk + s.effort) / 2

/-- A candidate change (`PatchProposal` in models.py).  The wall-clock
`created_at` field is omitted. -/
structure PatchProposal where
  id : Str
  title : Str
  description : Str
  diff : Str
  rationale : Str
  risk_note : Str
  score : Option Score := none
deriving DecidableEq

/-- One backup record stored by `apply_after_approval`:
`{file, path, original_exists}`. -/
structure BackupRec where
  file : Str
  path : Option Str
  original_exists : Bool
deriving DecidableEq

/-- Persistent evolution state (`WorldState` in models.py).  The
free-form `notes` dictionary is omitted; `backups` maps a proposal id to
its list of backup records. -/
structure WorldState where
  objectives : List Str
  accepted_patches : List Str
  cycle : Int
  backups : Str → Option (List BackupRec)

/-- Exceptions raised by the core: `ValueError("Proposal not found")` /
`ValueError("Proposal not pending")`, the security `ValueError` of
`validate_diff_security` (with the offending token), and
`PolicyViolation` (with the offending filename). -/
inductive EvoError where
  | notFound : EvoError
  | securityViolation : Str → EvoError
  | policyViolation : Str → EvoError
deriving DecidableEq

/-- Equality of `Except` outcomes is decidable componentwise, allowing
concrete operation results to be checked by evaluation. -/
instance {ε α : Type} [DecidableEq ε] [DecidableEq α] :
    DecidableEq (Except ε α) := fun x y =>
  match x, y with
  | .error a, .error b =>
    if h : a = b then .isTrue (by rw [h])
    else .isFalse (by intro hc; cases hc; exact h rfl)
  | .ok a, .ok b =>
    if h : a = b then .isTrue (by rw [h])
    else .isFalse (by intro hc; cases hc; exact h rfl)
  | .error _, .ok _ => .isFalse (by intro hc; cases hc)
  | .ok _, .error _ => .isFalse (by intro hc; cases hc)

/-- The repository file tree: relative path to file content, `none`
meaning the file does not exist. -/
def FS := Str → Option Str

/-- `path.write_text(content)` relative to the repository root. -/
def FS.write (fs : FS) (p c : Str) : FS :=
  fun q => if q = p then some c else fs q

/-- `path.unlink()` relative to the repository root. -/
def FS.erase (fs : FS) (p : Str) : FS :=
  fun q => if q = p then none else fs q

/-- Update a backups map at one proposal id. -/
def mapInsert (m : Str → Option (List BackupRec)) (k : Str) (v : List BackupRec) :
    Str → Option (List BackupRec) :=
  fun q => if q = k then some v else m q

/-- `dict.pop(k, None)` on a backups map. -/
def mapErase (m : Str → Option (List BackupRec)) (k : Str) :
    Str → Option (List BackupRec) :=
  fun q => if q = k then none else m q

/-! ### Security scan (src/core/diffing.py, validate_diff_security) -/

/-- Blacklisted dangerous substrings. -/
def forbiddenTokens : List Str :=
  [str "/etc/", str "rm -rf", str "Invoke-WebRequest"]

/-- The first forbidden token contained in the lower-cased diff text, if
any; `validate_diff_security` raises on it. -/
def findDangerous (diff : Str) : Option Str :=
  forbiddenTokens.find? (fun token => containsSub (lowerL token) (lowerL diff))

/-! ### Policy gate and approval gate (src/core/governance.py) -/

def SAFE_PATTERNS : List Str :=
  [str "README.md", str "CONTRIBUTING.md", str "CHANGELOG.md",
   str "*.md", str "*.txt", str "*.json"]

def DENY_PATTERNS : List Str :=
  [str "requirements.txt", str ".env", str "*.pyc", str "__pycache__"]

/-- Pattern match of governance `_match`: exact name, or `*.<ext>`
suffix match. -/
def patMatch (pattern filename : Str) : Bool :=
  if pattern = filename then true
  else if startsWithL (str "*.") pattern then endsWithL (pattern.drop 1) filename
  else false

/-- Governance `_is_safe`: on some allow pattern and on no deny
pattern. -/
def is_safe (filename : Str) : Bool :=
  SAFE_PATTERNS.any (fun p => patMatch p filename) &&
    !(DENY_PATTERNS.any (fun d => patMatch d filename))

/-- Touched filenames as extracted by `policy_check` (`+++ b/` targets,
not stripped). -/
def touchedFilesGov (diff : Str) : List Str :=
  (splitlinesL diff).filterMap
    (fun line => if startsWithL (str "+++ b/") line then some (line.drop 6) else none)

/-- The fail-fast loop body of `policy_check`. -/
def policyLoop : List Str → Except EvoError Unit
  | [] => .ok ()
  | f :: rest => if is_safe f then policyLoop rest else .error (.policyViolation f)

/-- `policy_check(proposal)`: raises `PolicyViolation` on the first
touched file that is not safe. -/
def policy_check (proposal : PatchProposal) : Except EvoError Unit :=
  policyLoop (touchedFilesGov proposal.diff)

/-- `ApprovalGate.submit`: policy check, then append to pending.  On a
policy violation the pending list is not extended. -/
def submit (pending : List PatchProposal) (proposal : PatchProposal) :
    Except EvoError (List PatchProposal) :=
  match policy_check proposal with
  | .error e => .error e
  | .ok _ => .ok (pending ++ [proposal])

/-- `ApprovalGate.approve`: linear scan, remove and return the first
pending proposal with the given id; `none` models the raised
`ValueError("Proposal not found")`. -/
def approveFn : List PatchProposal → Str → Option (PatchProposal × List PatchProposal)
  | [], _ => none
  | p :: rest, pid =>
    if p.id = pid then some (p, rest)
    else match approveFn rest pid with
      | some (q, rest2) => some (q, p :: rest2)
      | none => none

/-! ### Orchestrator (src/core/orchestrator.py) -/

/-- In-memory state owned by one `Orchestrator`: the approval gate's
pending list, the persistent `WorldState`, the repository files, the
append-only version-history ledger (`logs/version_history.jsonl`,
timestamps omitted), and the last persisted snapshot of the world state
(the content of `.evo_state.json`). -/
structure OrchState where
  pending : List PatchProposal
  world : WorldState
  fs : FS
  versionLog : List (Str × Str × Str × Int)
  persisted : Option WorldState

/-- The segment-splitting loop of `apply_after_approval`: split the diff
lines on `+++ b/<path>` markers (stripping the filename), drop `--- a/`
and `@@` lines, collect everything else into the current segment;
lines before the first marker are discarded. -/
def parseSegsAux : List Str → Option (Str × List Str) → List (Str × List Str)
  | [], cur =>
    (match cur with
     | none => []
     | some seg => [seg])
  | line :: rest, cur =>
    if startsWithL (str "+++ b/") line then
      (match cur with
       | none => []
       | some seg => [seg]) ++ parseSegsAux rest (some (stripL (line.drop 6), []))
    else if startsWithL (str "--- a/") line then parseSegsAux rest cur
    else if startsWithL (str "@@") line then parseSegsAux rest cur
    else match cur with
      | none => parseSegsAux rest none
      | some (f, lns) => parseSegsAux rest (some (f, lns ++ [line]))

/-- Per-file diff segments of a proposal diff. -/
def parseSegs (diff : Str) : List (Str × List Str) :=
  parseSegsAux (splitlinesL diff) none

/-- The line filter of `_reconstruct`: keep a `+` line with the marker
stripped (unless it starts with `+++`), drop a `-` line, keep anything
else. -/
def reconstructLines : List Str → List Str
  | [] => []
  | ln :: rest =>
    if startsWithL (str "+") ln && !startsWithL (str "+++") ln then
      ln.drop 1 :: reconstructLines rest
    else if startsWithL (str "-") ln then reconstructLines rest
    else ln :: reconstructLines rest

/-- `_reconstruct(lines)`: filter the lines, right-strip each, join with
newlines, strip the whole text, append one newline. -/
def reconstruct (lines : List Str) : Str :=
  stripL (joinL (str "\n") ((reconstructLines lines).map rstripL)) ++ str "\n"

/-- Flattened filename used in backup side-car names
(`fname.replace('/', '_')`). -/
def flattenSlash (fname : Str) : Str :=
  fname.map (fun c => if c = '/' then '_' else c)

/-- Backup side-car path `.backup_<flattened fname>_<proposal id>.txt`. -/
def bpName (fname pid : Str) : Str :=
  str ".backup_" ++ flattenSlash fname ++ str "_" ++ pid ++ str ".txt"

/-- The per-segment loop of `apply_after_approval`, threading the file
tree, the collected backup records, the version ledger and the list of
applied files.  The backup capture is not guarded by `dry_run`; only the
content write, the ledger append and the applied-files append are. -/
def applyLoop (hash : Str → Str) (pid : Str) (dry : Bool) (cyc : Int) :
    List (Str × List Str) → FS → List BackupRec → List (Str × Str × Str × Int) →
      List Str → FS × List BackupRec × List (Str × Str × Str × Int) × List Str
  | [], fs, recs, log, applied => (fs, recs, log, applied)
  | (fname, lines) :: rest, fs, recs, log, applied =>
    let step : FS × List BackupRec :=
      match fs fname with
      | some original =>
        (fs.write (bpName fname pid) original,
         recs ++ [⟨fname, some (bpName fname pid), true⟩])
      | none => (fs, recs ++ [⟨fname, none, false⟩])
    if dry then applyLoop hash pid dry cyc rest step.1 step.2 log applied
    else
      let newContent := reconstruct lines
      applyLoop hash pid dry cyc rest (step.1.write fname newContent) step.2
        (log ++ [(pid, fname, hash newContent, cyc)]) (applied ++ [fname])

/-- Return message of the no-segment path. -/
def noopMsg : Str := str "(kein Dateiinhalt im Diff / nichts anzuwenden)"

/-- `apply_after_approval(proposal_id, dry_run)`.  Returns the state
(including partial mutations made before a raise) together with either
the result string or the raised error. -/
def apply_after_approval (hash : Str → Str) (s : OrchState) (pid : Str)
    (dry : Bool) : OrchState × Except EvoError Str :=
  match approveFn s.pending pid with
  | none => (s, .error .notFound)
  | some (proposal, pending1) =>
    let s1 : OrchState := { s with pending := pending1 }
    match findDangerous proposal.diff with
    | some token => (s1, .error (.securityViolation token))
    | none =>
      match parseSegs proposal.diff with
      | [] => (s1, .ok noopMsg)
      | seg0 :: segRest =>
        let segments := seg0 :: segRest
        let accepted1 :=
          if dry then s1.world.accepted_patches
          else s1.world.accepted_patches ++ [pid]
        let out := applyLoop hash pid dry s1.world.cycle segments s1.fs [] s1.versionLog []
        if dry then
          ({ s1 with fs := out.1 },
           .ok (str "(dry-run) " ++ joinL (str ", ") (segments.map Prod.fst)))
        else
          let world1 : WorldState :=
            { s1.world with
              accepted_patches := accepted1
              backups := mapInsert s1.world.backups pid out.2.1 }
          ({ s1 with
             fs := out.1
             world := world1
             versionLog := out.2.2.1
             persisted := some world1 },
           .ok (joinL (str ", ") out.2.2.2))

/-- `preview(proposal_id)`: the diff of a still-pending proposal,
`ValueError("Proposal not pending")` otherwise. -/
def preview (s : OrchState) (pid : Str) : Except EvoError Str :=
  match s.pending.find? (fun p => p.id = pid) with
  | some p => .ok p.diff
  | none => .error .notFound

/-- Python truthiness of an optional backup path. -/
def pathTruthy : Option Str → Bool
  | none => false
  | some p => !p.isEmpty

/-- The per-record loop of `undo_last`: restore the saved content when
the original existed and a backup path is recorded (a failed read is
swallowed), otherwise delete the created file if it exists and the
filename is non-empty. -/
def undoLoop : List BackupRec → FS → FS
  | [], fs => fs
  | rec :: rest, fs =>
    let fs1 :=
      if rec.original_exists && pathTruthy rec.path then
        match rec.path with
        | some p =>
          match fs p with
          | some originalContent => fs.write rec.file originalContent
          | none => fs
        | none => fs
      else
        if !rec.file.isEmpty && (fs rec.file).isSome then fs.erase rec.file else fs
    undoLoop rest fs1

/-- `undo_last()`: pop the most recent accepted proposal id, walk its
backup records in order, drop its backups entry, persist. -/
def undo_last (s : OrchState) : OrchState × Option Str :=
  match s.world.accepted_patches.getLast? with
  | none => (s, none)
  | some last =>
    let recs := (s.world.backups last).getD []
    let world1 : WorldState :=
      { s.world with
        accepted_patches := s.world.accepted_patches.dropLast
        backups := mapErase s.world.backups last }
    ({ s with fs := undoLoop recs s.fs, world := world1, persisted := some world1 },
     some last)

/-! ### Agents (src/core/agents.py) -/

/-- `ScoringAgent.score`: fixed sub-scores except an impact term growing
(boundedly) with the description length. -/
def scoreOf (proposal : PatchProposal) : Score :=
  { clarity := 0.8
    impact := 0.6 + min 0.3 ((proposal.description.length : ℚ) / 200)
    risk := 0.2
    effort := 0.3 }

/-- The scoring step of `cycle` (`p.score = self.scoring.score(p)`). -/
def withScore (p : PatchProposal) : PatchProposal :=
  { p with score := some (scoreOf p) }

/-- The generate/score/submit loop of `cycle`.  A policy violation
raised by `submit` propagates, keeping the pending list extended by the
proposals submitted so far. -/
def cycleLoop : List PatchProposal → List PatchProposal → List PatchProposal →
    List PatchProposal × List PatchProposal × Option EvoError
  | [], pending, scored => (pending, scored, none)
  | p :: rest, pending, scored =>
    let p1 := withScore p
    match submit pending p1 with
    | .error e => (pending, scored, some e)
    | .ok pending1 => cycleLoop rest pending1 (scored ++ [p1])

/-- `cycle(dry_run)`: score and submit each generated proposal (the
generated list is passed explicitly, standing for
`self.evolution.propose(self.state)`), then increment the cycle counter
and persist.  On a policy violation nothing after the failing submit
runs.  `dry_run` is accepted and ignored, exactly as in the source. -/
def cycle (s : OrchState) (proposals : List PatchProposal) (_dryRun : Bool) :
    OrchState × Except EvoError (List PatchProposal) :=
  match cycleLoop proposals s.pending [] with
  | (pending1, _, some e) => ({ s with pending := pending1 }, .error e)
  | (pending1, scored, none) =>
    let world1 : WorldState := { s.world with cycle := s.world.cycle + 1 }
    ({ s with pending := pending1, world := world1, persisted := some world1 },
     .ok scored)

/-! ### EvolutionAgent (src/core/agents.py) -/

/-- The canned proposal of fallback cycle 0 (`p1`, CONTRIBUTING guide). -/
def fallbackP1 : PatchProposal :=
  { id := str "p1"
    title := str "Add CONTRIBUTING guide"
    description := str "Plain & friendly contributing basics."
    diff := str "--- a/CONTRIBUTING.md\n+++ b/CONTRIBUTING.md\n+# Contributing\n+Danke, dass du helfen möchtest!\n+## Schritte\n+1. Issue aufmachen\n+2. Branch erstellen\n+3. Änderung committen\n+4. Pull Request stellen\n+## Stil\n+Kurze Commits, beschreibende Titel.\n"
    rationale := str "Lower barrier for new helpers."
    risk_note := str "Low" }

/-- The canned proposal of fallback cycles 0 and 1 (`p2`, README
quickstart). -/
def fallbackP2 : PatchProposal :=
  { id := str "p2"
    title := str "Improve README Quickstart"
    description := str "Add clearer bullet list + API + Web UI info."
    diff := str "--- a/README.md\n+++ b/README.md\n+<!-- Quickstart Enhancement Start -->\n+## Schneller Überblick (Einfach)\n+1. Umgebung anlegen: `python -m venv .venv`\n+2. Aktivieren (PowerShell): `./.venv/Scripts/Activate.ps1`\n+3. Abhängigkeiten: `pip install -r requirements.txt`\n+4. Env vorbereiten: `copy .env.example .env` und Key eintragen\n+5. Simulation (Test): `python run_simulation.py --cycles 1 --dry-run`\n+6. Vorschlag anwenden: `python run_simulation.py --apply p1 --cycles 1`\n+7. API starten: `uvicorn src.api.app:app --port 8099`\n+8. Browser: http://127.0.0.1:8099 (Frontend optional wenn vorhanden)\n+\n+## API Endpunkte (Kurz)\n+| Methode | Pfad | Zweck |\n+|---------|------|-------|\n+| POST | /cycle | Neue Vorschläge (dry) |\n+| GET  | /pending | Offene Vorschläge |\n+| POST | /apply/{id} | Anwenden |\n+| POST | /undo | Letztes rückgängig |\n+| GET  | /health | Status |\n+\n+<!-- Quickstart Enhancement End -->\n"
    rationale := str "First impression matters."
    risk_note := str "Low" }

/-- The canned proposal of fallback cycle 2 (`p_arch`). -/
def fallbackArch : PatchProposal :=
  { id := str "p_arch"
    title := str "Add ARCHITECTURE overview"
    description := str "Basic architecture explanation for agents & orchestrator."
    diff := str "--- a/ARCHITECTURE.md\n+++ b/ARCHITECTURE.md\n+# Architekturüberblick\n+Dieses Projekt nutzt einen Orchestrator, der Evolutions- und Scoring-Agenten koordiniert.\n+## Komponenten\n+- Orchestrator: Ablauf & Persistenz\n+- EvolutionAgent: erzeugt Vorschläge (Fallback oder Groq)\n+- ScoringAgent: heuristische Bewertung\n+- Governance: Policy-Prüfungen (Basis)\n+- Logging: JSONL + Changelog\n+## Zyklus\n+Proposals -> Scoring -> Pending -> Apply (Backup + Undo)\n"
    rationale := str "Helps contributors grasp system quickly."
    risk_note := str "Low" }

/-- The canned proposal of fallback cycle 3 (`p_roadmap`). -/
def fallbackRoadmap : PatchProposal :=
  { id := str "p_roadmap"
    title := str "Add ROADMAP"
    description := str "Outline future improvements and priorities."
    diff := str "--- a/ROADMAP.md\n+++ b/ROADMAP.md\n+# Roadmap\n+## Kurzfristig\n+- Verbesserte Tests (Apply/Undo)\n+- LLM Output Validierung erweitern\n+## Mittelfristig\n+- Embedding Retrieval\n+- Risiko/Effort Modellierung verbessern\n+## Langfristig\n+- Multi-Agent Reflexionsschleifen\n+- Auth & Security Härtung (API)\n"
    rationale := str "Signals direction for contributors."
    risk_note := str "Low" }

/-- The canned proposal of fallback cycle 4 (`p_testing`). -/
def fallbackTesting : PatchProposal :=
  { id := str "p_testing"
    title := str "Add TESTING guide"
    description := str "Explain how to run and extend tests."
    diff := str "--- a/TESTING.md\n+++ b/TESTING.md\n+# Testing Leitfaden\n+## Ausführen\n+pytest -q\n+## Was testen?\n+- Scoring Edge Cases\n+- Apply/Undo Roundtrip\n+- Diff Sicherheits-Validierung\n+## Nächste Schritte\n+- Property Tests für Patch Parser\n+"
    rationale := str "Encourages test culture."
    risk_note := str "Low" }

/-- `EvolutionAgent._fallback_static`: cycle-indexed deterministic
proposals (cycle 0: p1 and p2; cycle 1: p2; cycles 2-4: one document
each; otherwise nothing). -/
def fallback_static (state : WorldState) : List PatchProposal :=
  (if state.cycle = 0 then [fallbackP1] else []) ++
  (if state.cycle ≤ 1 then [fallbackP2] else []) ++
  (if state.cycle = 2 then [fallbackArch] else []) ++
  (if state.cycle = 3 then [fallbackRoadmap] else []) ++
  (if state.cycle = 4 then [fallbackTesting] else [])

/-- Parsed JSON values, as produced by `json.loads`.  Numbers are kept
as their raw textual form, which is all the agent ever inspects through
`str()`. -/
inductive Json where
  | null : Json
  | bool : Bool → Json
  | num : Str → Json
  | str : Str → Json
  | arr : List Json → Json
  | obj : List (Str × Json) → Json

/-- Whether a JSON value is a Python `dict`. -/
def Json.isObj : Json → Bool
  | .obj _ => true
  | _ => false

/-- Python `str()` applied to a parsed JSON value.  Scalars render as in
Python; the renderings of nested containers are abridged (no verified
claim depends on them). -/
def jsonToStr : Json → Str
  | .null => str "None"
  | .bool true => str "True"
  | .bool false => str "False"
  | .num n => n
  | .str s => s
  | .arr _ => str "[...]"
  | .obj _ => str "\x7b...\x7d"

/-- `dict.get(key, default)` on a parsed JSON object (keys assumed
deduplicated, as `json.loads` leaves them). -/
def jget (fields : List (Str × Json)) (key : Str) (default : Json) : Json :=
  match fields.find? (fun kv => kv.1 = key) with
  | some kv => kv.2
  | none => default

/-- The balanced-bracket scan of `_extract_json_block`: starting at a
`[`, find the matching `]` and return the slice up to and including
it. -/
def balanceGo : List Char → Int → Str → Option Str
  | [], _, _ => none
  | c :: rest, depth, acc =>
    let depth1 : Int :=
      if c = '[' then depth + 1 else if c = ']' then depth - 1 else depth
    if c = ']' && depth1 = 0 then some (c :: acc).reverse
    else balanceGo rest depth1 (c :: acc)

/-- `_extract_json_block`: strip; keep the text when it already looks
like an array; otherwise slice out the first balanced `[...]` block,
returning the stripped text unchanged when no `[` or no matching `]`
exists. -/
def extract_json_block (txt : Str) : Str :=
  let t := stripL txt
  if startsWithL (str "[") t && endsWithL (str "]") t then t
  else
    let start := t.dropWhile (fun c => c ≠ '[')
    if start.isEmpty then t
    else match balanceGo start 0 [] with
      | some block => block
      | none => t

/-- Build one proposal from a usable (dict) suggestion element; `uid`
stands for the `uuid4` hex fragment consumed by the default id. -/
def mkProposal (uid : Str) (fields : List (Str × Json)) : PatchProposal :=
  let filename := jsonToStr (jget fields (str "filename") (.str (str "IMPROVEMENT.md")))
  let content := jsonToStr (jget fields (str "content") (.str (str "Placeholder")))
  let diffBodyLines := splitlinesL content
  { id := (jsonToStr (jget fields (str "id") (.str (str "p-" ++ uid)))).take 24
    title := (jsonToStr (jget fields (str "title") (.str (str "Untitled")))).take 120
    description := (jsonToStr (jget fields (str "description") (.str []))).take 400
    diff := str "--- a/" ++ filename ++ str "\n+++ b/" ++ filename ++ str "\n+" ++
      joinL (str "\n+") diffBodyLines ++ str "\n"
    rationale := (jsonToStr (jget fields (str "rationale") (.str []))).take 300
    risk_note := str "Low" }

/-- The element loop of `propose`: walk the first three parsed elements,
skipping everything that is not a dict. -/
def buildProposals (uuidHex : Nat → Str) : Nat → List Json → List PatchProposal
  | _, [] => []
  | i, .obj fields :: rest => mkProposal (uuidHex i) fields :: buildProposals uuidHex (i + 1) rest
  | i, _ :: rest => buildProposals uuidHex i rest

/-- `EvolutionAgent.propose`.  `hasClient`/`apiKey` model the client
construction and its configured key, `raw` the chat-completion response
(the client returns sentinel strings instead of raising), `loads` the
`json.loads` library call (`none` = a raised parse error), and `uuidHex`
the stream of `uuid4` hex fragments. -/
def propose (hasClient : Bool) (apiKey : Str) (loads : Str → Option Json)
    (uuidHex : Nat → Str) (raw : Str) (state : WorldState) : List PatchProposal :=
  if !hasClient || apiKey.isEmpty then fallback_static state
  else
    match loads (extract_json_block raw) with
    | none => fallback_static state
    | some parsed =>
      let dataList := match parsed with | .arr l => l | _ => []
      let proposals := buildProposals uuidHex 0 (dataList.take 3)
      if proposals.isEmpty then fallback_static state else proposals

/-! ### TwinCoordinator (src/core/twin.py) -/

/-- File types copied into sandboxes and snapshots. -/
def ALLOWED_EXT : List Str :=
  [str ".py", str ".md", str ".txt", str ".json", str ".yml", str ".yaml"]

/-- Directories skipped by the tree walk. -/
def IGNORE_DIRS : List Str :=
  [str ".git", str ".venv", str "__pycache__", str "logs", str ".twin"]

/-- Split a relative path into its components (`Path.parts`). -/
def pathParts (p : Str) : List Str :=
  (splitlinesGo (p.map (fun c => if c = '/' then '\n' else c)) [])

/-- `Path.suffix`: the final extension of the last path component, empty
when the name has no dot or only a leading dot. -/
def pathSuffix (p : Str) : Str :=
  let name := (pathParts p).getLastD []
  let revExt := name.reverse.takeWhile (fun c => c ≠ '.')
  if revExt.length = name.length then []
  else
    let stem := name.take (name.length - revExt.length - 1)
    if stem.isEmpty then [] else '.' :: revExt.reverse

/-- The filter of `_iter_files`: allowed extension and no ignored
directory component. -/
def iterKeep (p : Str) : Bool :=
  !(pathParts p).any (fun part => IGNORE_DIRS.any (fun d => d = part)) &&
    ALLOWED_EXT.any (fun e => e = pathSuffix p)

/-- State owned by one `TwinCoordinator`: the main tree (as an
enumerable list of path/content pairs), the sandbox tree when the
sandbox directory exists, and the recorded baseline hash map (the
content of `.baseline_hashes.json`). -/
structure TwinState where
  mainFiles : List (Str × Str)
  sandbox : Option (List (Str × Str))
  baseline : Option (List (Str × Str))

/-- `TwinCoordinator.init_sandbox(force)`: return the sandbox unchanged
when it exists and `force` is not set; otherwise (re)create it as the
filtered copy of the main tree and record the baseline content-hash
map. -/
def init_sandbox (hash : Str → Str) (t : TwinState) (force : Bool) : TwinState :=
  match t.sandbox, force with
  | some _, false => t
  | _, _ =>
    let files := t.mainFiles.filter (fun fc => iterKeep fc.1)
    { t with
      sandbox := some files
      baseline := some (files.map (fun fc => (fc.1, hash fc.2))) }

end Evo

namespace Evo

/-! ### Sanity checks on the string model -/

example : splitlinesL (str "a\nb\n") = [str "a", str "b"] := by decide
example : splitlinesL (str "") = [] := by decide
example : splitlinesL (str "\n") = [str ""] := by decide
example : stripL (str "  x \n") = str "x" := by decide
example : containsSub (str "rm -rf") (str "echo rm -rf /x") = true := by decide
example : parseSegs (str "--- a/A.md\n+++ b/A.md\n@@ -1 +1 @@\n-old\n+new") =
    [(str "A.md", [str "-old", str "+new"])] := by decide
example : reconstruct [str "-old", str "+new"] = str "new\n" := by decide

/-! ### C9: the no-capability fallback is empty from cycle 5 on -/

/-- C9: when no LLM client is available, `EvolutionAgent.propose` with
`state.cycle ≥ 5` returns the empty list: the deterministic fallback
sequence is keyed to cycles 0 through 4 only. -/
theorem propose_empty_from_cycle_five (apiKey : Str) (loads : Str → Option Json)
    (uuidHex : Nat → Str) (raw : Str) (state : WorldState)
    (h : 5 ≤ state.cycle) :
    propose false apiKey loads uuidHex raw state = [] := by
  have h0 : ¬ state.cycle = 0 := by omega
  have h1 : ¬ state.cycle ≤ 1 := by omega
  have h2 : ¬ state.cycle = 2 := by omega
  have h3 : ¬ state.cycle = 3 := by omega
  have h4 : ¬ state.cycle = 4 := by omega
  simp [propose, fallback_static, h0, h1, h2, h3, h4]

/-- Witness for C9 at a concrete world state with cycle 5. -/
theorem propose_empty_from_cycle_five_witness :
    (5 : Int) ≤ (5 : Int) ∧
      propose false [] (fun _ => none) (fun _ => [])
        (str "ignored") ⟨[], [], 5, fun _ => none⟩ = [] :=
  ⟨by decide,
   propose_empty_from_cycle_five [] (fun _ => none) (fun _ => [])
     (str "ignored") ⟨[], [], 5, fun _ => none⟩ (by decide)⟩

/-! ### C7: idempotence of init_sandbox without force -/

/-- C7: `init_sandbox(force=false)` is idempotent: an existing sandbox
is returned unchanged, so two consecutive calls without force yield the
same twin state and in particular the same baseline hash map. -/
theorem init_sandbox_idempotent (hash : Str → Str) (t : TwinState) :
    (∀ sb, t.sandbox = some sb → init_sandbox hash t false = t) ∧
      init_sandbox hash (init_sandbox hash t false) false =
        init_sandbox hash t false := by
  constructor
  · intro sb hsb
    simp [init_sandbox, hsb]
  · cases hsb : t.sandbox with
    | some sb => simp [init_sandbox, hsb]
    | none => simp [init_sandbox, hsb]

/-- A concrete twin state whose sandbox directory already exists. -/
def twinEx : TwinState :=
  { mainFiles := [(str "a.md", str "hi")]
    sandbox := some [(str "a.md", str "hi")]
    baseline := some [(str "a.md", str "hi")] }

/-- Witness for C7 on a concrete twin state: the existing sandbox is
returned unchanged and a second call changes nothing. -/
theorem init_sandbox_idempotent_witness :
    twinEx.sandbox = some [(str "a.md", str "hi")] ∧
      init_sandbox (fun c => c) twinEx false = twinEx ∧
      init_sandbox (fun c => c) (init_sandbox (fun c => c) twinEx false) false =
        init_sandbox (fun c => c) twinEx false :=
  ⟨rfl, (init_sandbox_idempotent (fun c => c) twinEx).1 _ rfl,
   (init_sandbox_idempotent (fun c => c) twinEx).2⟩

/-! ### C5: deny-listed files are rejected at submission -/

/-- The fail-fast policy loop errors as soon as some touched file is
unsafe. -/
theorem policyLoop_error_of_unsafe {f : Str} :
    ∀ l : List Str, f ∈ l → is_safe f = false →
      ∃ g, policyLoop l = .error (.policyViolation g) := by
  intro l
  induction l with
  | nil => intro h; cases h
  | cons a t ih =>
    intro hmem hf
    by_cases ha : is_safe a = true
    · have hft : f ∈ t := by
        rcases List.mem_cons.mp hmem with rfl | hft
        · rw [hf] at ha; cases ha
        · exact hft
      obtain ⟨g, hg⟩ := ih hft hf
      exact ⟨g, by simp [policyLoop, ha, hg]⟩
    · refine ⟨a, ?_⟩
      rw [Bool.not_eq_true] at ha
      simp [policyLoop, ha]

/-- C5: a proposal whose diff touches at least one deny-listed file is
rejected by `ApprovalGate.submit` with a `PolicyViolation` (so it is not
appended to the pending list), regardless of any allow-listed files it
also touches. -/
theorem submit_rejects_denied (pending : List PatchProposal) (p : PatchProposal)
    (h : ∃ f ∈ touchedFilesGov p.diff, DENY_PATTERNS.any (fun d => patMatch d f) = true) :
    ∃ g, submit pending p = .error (.policyViolation g) := by
  obtain ⟨f, hmem, hdeny⟩ := h
  have hunsafe : is_safe f = false := by
    simp only [is_safe, hdeny, Bool.not_true, Bool.and_false]
  obtain ⟨g, hg⟩ := policyLoop_error_of_unsafe (touchedFilesGov p.diff) hmem hunsafe
  exact ⟨g, by simp [submit, policy_check, hg]⟩

/-- Witness for C5: a diff touching `README.md` (allow-listed) and
`requirements.txt` (deny-listed) is rejected. -/
theorem submit_rejects_denied_witness :
    (∃ f ∈ touchedFilesGov (str "+++ b/README.md\n+ok\n+++ b/requirements.txt\n+x"),
        DENY_PATTERNS.any (fun d => patMatch d f) = true) ∧
      ∃ g, submit []
          { id := str "pX", title := [], description := [],
            diff := str "+++ b/README.md\n+ok\n+++ b/requirements.txt\n+x",
            rationale := [], risk_note := [] } = .error (.policyViolation g) :=
  ⟨by decide,
   submit_rejects_denied []
     { id := str "pX", title := [], description := [],
       diff := str "+++ b/README.md\n+ok\n+++ b/requirements.txt\n+x",
       rationale := [], risk_note := [] } (by decide)⟩

/-! ### C8: the security scan aborts apply before any file mutation -/

/-- C8: when the diff of an approved proposal contains a blacklisted
dangerous substring, `apply_after_approval` fails with a
`SecurityViolation` and the resulting state differs from the input state
only in the pending list (popped by the approve step): no file is
written or backed up, the world state, the version ledger and the
persisted state are untouched. -/
theorem apply_security_aborts (hash : Str → Str) (s : OrchState) (pid : Str)
    (dry : Bool) (p : PatchProposal) (pending1 : List PatchProposal)
    (ha : approveFn s.pending pid = some (p, pending1))
    (hd : ∃ tok ∈ forbiddenTokens, containsSub (lowerL tok) (lowerL p.diff) = true) :
    ∃ tok2, apply_after_approval hash s pid dry =
      ({ s with pending := pending1 }, .error (.securityViolation tok2)) := by
  obtain ⟨tok, htok, hc⟩ := hd
  have hsome : (forbiddenTokens.find?
      (fun token => containsSub (lowerL token) (lowerL p.diff))).isSome :=
    List.find?_isSome.mpr ⟨tok, htok, hc⟩
  obtain ⟨tok2, h2⟩ := Option.isSome_iff_exists.mp hsome
  exact ⟨tok2, by simp [apply_after_approval, ha, findDangerous, h2]⟩

/-- A proposal whose diff contains the dangerous token `rm -rf`. -/
def secProp : PatchProposal :=
  { id := str "pS"
    title := []
    description := []
    diff := str "+++ b/README.md\n+run rm -rf tmp"
    rationale := []
    risk_note := [] }

/-- An empty world state for concrete orchestrator fixtures. -/
def world0 : WorldState :=
  { objectives := [], accepted_patches := [], cycle := 0, backups := fun _ => none }

/-- Orchestrator fixture holding only `secProp` pending, over an empty
file tree. -/
def secState : OrchState :=
  { pending := [secProp], world := world0, fs := fun _ => none,
    versionLog := [], persisted := none }

/-- Witness for C8: a pending proposal whose diff contains `rm -rf` is
aborted by the security scan. -/
theorem apply_security_aborts_witness :
    approveFn secState.pending (str "pS") = some (secProp, []) ∧
      ∃ tok2, apply_after_approval (fun c => c) secState (str "pS") false =
        ({ secState with pending := [] }, .error (.securityViolation tok2)) :=
  ⟨by decide,
   apply_security_aborts (fun c => c) secState (str "pS") false secProp []
     (by decide) (by decide)⟩

/-! ### C6: proposal generation always degrades to the fallback -/

/-- The element loop produces nothing when no element of the parsed
prefix is a dict. -/
theorem buildProposals_eq_nil_of_no_obj (uuidHex : Nat → Str) :
    ∀ (l : List Json) (i : Nat), (∀ e ∈ l, e.isObj = false) →
      buildProposals uuidHex i l = [] := by
  intro l
  induction l with
  | nil => intro i _; rfl
  | cons e t ih =>
    intro i h
    have he : e.isObj = false := h e (by simp)
    have ht : ∀ e2 ∈ t, e2.isObj = false := fun e2 h2 => h e2 (by simp [h2])
    cases e with
    | obj fields => simp [Json.isObj] at he
    | null => simpa [buildProposals] using ih i ht
    | bool b => simpa [buildProposals] using ih i ht
    | num n => simpa [buildProposals] using ih i ht
    | str s2 => simpa [buildProposals] using ih i ht
    | arr l2 => simpa [buildProposals] using ih i ht

/-- C6: `EvolutionAgent.propose` always returns a list (it is a total
function of the modelled inputs) and degrades to the deterministic
cycle-indexed fallback sequence whenever the client is missing, no API
key is configured, the response text cannot be parsed as JSON, or
parsing yields no usable (dict) element among the first three — instead
of propagating any error. -/
theorem propose_degrades (hasClient : Bool) (apiKey : Str)
    (loads : Str → Option Json) (uuidHex : Nat → Str) (raw : Str)
    (state : WorldState)
    (h : hasClient = false ∨ apiKey = [] ∨
        loads (extract_json_block raw) = none ∨
        ∃ j, loads (extract_json_block raw) = some j ∧
          ((match j with | .arr l => l | _ => []).take 3).all
            (fun e => !e.isObj) = true) :
    propose hasClient apiKey loads uuidHex raw state = fallback_static state := by
  rcases h with h | h | h | ⟨j, hj, hall⟩
  · simp [propose, h]
  · simp [propose, h]
  · by_cases hck : (!hasClient || apiKey.isEmpty) = true
    · simp [propose, hck]
    · simp [propose, hck, h]
  · by_cases hck : (!hasClient || apiKey.isEmpty) = true
    · simp [propose, hck]
    · have hnone : ∀ e ∈ (match j with | .arr l => l | _ => []).take 3,
          e.isObj = false := by
        intro e he
        have := List.all_eq_true.mp hall e he
        simpa using this
      have hbuild := buildProposals_eq_nil_of_no_obj uuidHex
        ((match j with | .arr l => l | _ => []).take 3) 0 hnone
      simp [propose, hck, hj, hbuild]

/-- Witness for C6: with a configured client but an unparseable
response, generation at cycle 0 yields the two cycle-0 fallback
proposals. -/
theorem propose_degrades_witness :
    ((fun _ => (none : Option Json)) (extract_json_block (str "pure garbage")) = none) ∧
      propose true (str "key") (fun _ => none) (fun _ => [])
          (str "pure garbage") world0 = fallback_static world0 :=
  ⟨rfl,
   propose_degrades true (str "key") (fun _ => none) (fun _ => [])
     (str "pure garbage") world0 (Or.inr (Or.inr (Or.inl rfl)))⟩

/-! ### C4: the reconstruction pipeline -/

/-- The per-line rule exactly as the specification states it: keep a `+`
line (not `+++`) with the marker stripped, drop a `-` line, keep
anything else.  Phrased as a `filterMap` step, to be compared with the
loop `reconstructLines` of the source. -/
def keepLineSpec (ln : Str) : Option Str :=
  if startsWithL (str "+") ln && !startsWithL (str "+++") ln then some (ln.drop 1)
  else if startsWithL (str "-") ln then none
  else some ln

/-- The reconstruction exactly as the specification describes it:
filter, right-trim each line, join with newlines, append one trailing
newline — with no whole-text strip. -/
def reconstructClaim (lines : List Str) : Str :=
  joinL (str "\n") ((lines.filterMap keepLineSpec).map rstripL) ++ str "\n"

/-- Counterexample to C4 as stated: on the body lines `["x", ""]` the
source reconstruction strips the whole joined text, yielding `"x\n"`,
while the claimed pipeline yields `"x\n\n"`. -/
theorem reconstruct_claim_counterexample :
    reconstruct [str "x", str ""] ≠ reconstructClaim [str "x", str ""] := by
  decide

/-- The source loop agrees with the specification's per-line rule. -/
theorem reconstructLines_eq_filterMap (lines : List Str) :
    reconstructLines lines = lines.filterMap keepLineSpec := by
  induction lines with
  | nil => rfl
  | cons ln rest ih =>
    by_cases h1 : (startsWithL (str "+") ln && !startsWithL (str "+++") ln) = true
    · simp [reconstructLines, keepLineSpec, h1, ih]
    · by_cases h2 : startsWithL (str "-") ln = true
      · simp [reconstructLines, keepLineSpec, h1, h2, ih]
      · simp [reconstructLines, keepLineSpec, h1, h2, ih]

/-- A dropWhile result never starts with a character satisfying the
dropped predicate. -/
theorem head?_dropWhile_false (p : Char → Bool) :
    ∀ (l : Str) (c : Char), (l.dropWhile p).head? = some c → p c = false := by
  intro l
  induction l with
  | nil => intro c h; cases h
  | cons a t ih =>
    intro c h
    by_cases ha : p a = true
    · exact ih c (by simpa [List.dropWhile_cons, ha] using h)
    · rw [Bool.not_eq_true] at ha
      have : a = c := by simpa [List.dropWhile_cons, ha] using h
      rw [← this]; exact ha

/-- A right-stripped text never ends in whitespace. -/
theorem getLast?_rstripL (s : Str) (c : Char) (h : (rstripL s).getLast? = some c) :
    pySpace c = false := by
  unfold rstripL at h
  rw [List.getLast?_reverse] at h
  exact head?_dropWhile_false pySpace s.reverse c h

/-- C4 amended: the reconstruction keeps a `+` line (not `+++`) with its
marker stripped, drops `-` lines, keeps the rest, right-trims each
resulting line and joins with newlines, then additionally strips the
whole joined text of leading and trailing whitespace before appending
the terminator; the result ends in exactly one trailing newline, even
for the empty input list. -/
theorem reconstruct_amended (lines : List Str) :
    reconstruct lines =
        stripL (joinL (str "\n") ((lines.filterMap keepLineSpec).map rstripL)) ++
          str "\n" ∧
      ∃ body, reconstruct lines = body ++ [ '\n' ] ∧ body.getLast? ≠ some '\n' := by
  constructor
  · unfold reconstruct
    rw [reconstructLines_eq_filterMap]
  · refine ⟨stripL (joinL (str "\n") ((reconstructLines lines).map rstripL)), rfl, ?_⟩
    intro hlast
    have : pySpace '\n' = false := by
      unfold stripL at hlast
      exact getLast?_rstripL _ _ hlast
    simp [pySpace] at this

/-! ### C10: applying a proposal with no file segment -/

/-- The approve scan fails when no pending proposal carries the id. -/
theorem approveFn_eq_none (pid : Str) :
    ∀ l : List PatchProposal, (∀ q ∈ l, q.id ≠ pid) → approveFn l pid = none := by
  intro l
  induction l with
  | nil => intro _; rfl
  | cons p rest ih =>
    intro h
    have hp : p.id ≠ pid := h p (by simp)
    have hrest := ih (fun q hq => h q (by simp [hq]))
    simp [approveFn, hp, hrest]

/-- A pending proposal whose diff text contains no diff marker at all. -/
def noSegProp : PatchProposal :=
  { id := str "pN"
    title := []
    description := []
    diff := str "just words, no markers"
    rationale := []
    risk_note := [] }

/-- Orchestrator fixture holding only `noSegProp` pending. -/
def noSegState : OrchState :=
  { pending := [noSegProp], world := world0, fs := fun _ => none,
    versionLog := [], persisted := none }

/-- A pending proposal with no `+++ b/` segment whose diff nevertheless
contains the blacklisted token `rm -rf`.  It touches zero files, so the
policy gate admits it. -/
def noSegSecProp : PatchProposal :=
  { id := str "pZ"
    title := []
    description := []
    diff := str "cleanup: rm -rf stuff"
    rationale := []
    risk_note := [] }

/-- Orchestrator fixture holding only `noSegSecProp` pending. -/
def noSegSecState : OrchState :=
  { pending := [noSegSecProp], world := world0, fs := fun _ => none,
    versionLog := [], persisted := none }

/-- A second pending proposal sharing the id `pN` with `noSegProp`. -/
def dupPendState : OrchState :=
  { pending := [noSegProp, noSegProp], world := world0, fs := fun _ => none,
    versionLog := [], persisted := none }

/-- Counterexample to C10 as stated, in both directions.  First, a
no-segment diff containing a blacklisted token is admitted by the policy
gate (zero touched files), yet `apply_after_approval` raises
`SecurityViolation` instead of returning the no-op descriptor.  Second,
with a duplicate pending id — admitted by the gate — the first no-op
apply removes only the first copy, and a subsequent approve, preview and
apply with the same id succeed instead of failing with NotFound. -/
theorem apply_noop_claim_counterexample :
    (submit [] noSegSecProp = .ok [noSegSecProp] ∧
      (apply_after_approval (fun c => c) noSegSecState (str "pZ") false).2 =
        .error (.securityViolation (str "rm -rf")) ∧
      (apply_after_approval (fun c => c) noSegSecState (str "pZ") false).2 ≠
        .ok noopMsg) ∧
      ((apply_after_approval (fun c => c) dupPendState (str "pN") false).2 =
          .ok noopMsg ∧
        (apply_after_approval (fun c => c) dupPendState (str "pN") false).1.pending =
          [noSegProp] ∧
        preview (apply_after_approval (fun c => c) dupPendState (str "pN") false).1
            (str "pN") = .ok noSegProp.diff ∧
        approveFn (apply_after_approval (fun c => c) dupPendState
            (str "pN") false).1.pending (str "pN") = some (noSegProp, []) ∧
        (apply_after_approval (fun c => c)
            (apply_after_approval (fun c => c) dupPendState (str "pN") false).1
            (str "pN") false).2 = .ok noopMsg) := by
  decide

/-- C10 amended: approving a pending proposal whose diff has no
`+++ b/` segment and passes the security scan makes
`apply_after_approval` return the no-op descriptor while changing
nothing but the pending list (no file write, no world-state or persisted
change) — yet the proposal is gone, so a subsequent preview, approve or
apply with the same id fails with NotFound provided no second pending
proposal shares the id.  (Without the security-scan and unique-id
provisos the claim fails — see the counterexample.) -/
theorem apply_noop_removes_pending (hash : Str → Str) (s : OrchState) (pid : Str)
    (p : PatchProposal) (pending1 : List PatchProposal) (dry : Bool)
    (ha : approveFn s.pending pid = some (p, pending1))
    (hsec : findDangerous p.diff = none)
    (hseg : parseSegs p.diff = [])
    (huniq : ∀ q ∈ pending1, q.id ≠ pid) :
    apply_after_approval hash s pid dry = ({ s with pending := pending1 }, .ok noopMsg) ∧
      preview { s with pending := pending1 } pid = .error .notFound ∧
      approveFn pending1 pid = none ∧
      ∀ d2, apply_after_approval hash { s with pending := pending1 } pid d2 =
        ({ s with pending := pending1 }, .error .notFound) := by
  have hnone := approveFn_eq_none pid pending1 huniq
  refine ⟨?_, ?_, hnone, ?_⟩
  · simp [apply_after_approval, ha, hsec, hseg]
  · have hfind : pending1.find? (fun q => q.id = pid) = none := by
      rw [List.find?_eq_none]
      intro q hq
      simp [huniq q hq]
    simp [preview, hfind]
  · intro d2
    simp [apply_after_approval, hnone]

/-- Witness for the amended C10 on the concrete no-segment proposal. -/
theorem apply_noop_removes_pending_witness :
    approveFn noSegState.pending (str "pN") = some (noSegProp, []) ∧
      (apply_after_approval (fun c => c) noSegState (str "pN") false =
          ({ noSegState with pending := [] }, .ok noopMsg) ∧
        preview { noSegState with pending := [] } (str "pN") = .error .notFound ∧
        approveFn [] (str "pN") = none ∧
        ∀ d2, apply_after_approval (fun c => c) { noSegState with pending := [] }
            (str "pN") d2 =
          ({ noSegState with pending := [] }, .error .notFound)) :=
  ⟨by decide,
   apply_noop_removes_pending (fun c => c) noSegState (str "pN") noSegProp [] false
     (by decide) (by decide) (by decide) (by decide)⟩

/-! ### C2: the accepted-patches/backups invariant -/

/-- Every accepted (not yet undone) proposal id has a backups entry. -/
abbrev backups_invariant (w : WorldState) : Prop :=
  ∀ id2 ∈ w.accepted_patches, w.backups id2 ≠ none

/-- World state with a duplicated accepted id `x` and a (single) backups
entry for it.  Reachable through the public interface, since duplicate
proposal ids are admitted by the gate and can be applied twice. -/
def dupWorld : WorldState :=
  { objectives := [], accepted_patches := [str "x", str "x"], cycle := 0,
    backups := fun q => if q = str "x" then some [] else none }

/-- Orchestrator fixture around `dupWorld`. -/
def dupState : OrchState :=
  { pending := [], world := dupWorld, fs := fun _ => none,
    versionLog := [], persisted := none }

/-- Counterexample to C2 as stated: with the id `x` accepted twice,
`undo_last` completes, pops one occurrence and deletes the whole backups
entry, leaving the remaining occurrence of `x` without a backups entry —
the invariant is broken after a completed operation. -/
theorem backups_invariant_counterexample :
    backups_invariant dupWorld ∧
      (undo_last dupState).2 = some (str "x") ∧
      ¬ backups_invariant (undo_last dupState).1.world := by
  decide

/-- The last element of a duplicate-free list does not occur before the
last position. -/
theorem getLast_not_mem_dropLast {α : Type} (l : List α) (hnd : l.Nodup) (a : α)
    (h : l.getLast? = some a) : a ∉ l.dropLast := by
  have hne : l ≠ [] := by
    intro h0
    subst h0
    simp at h
  have ha : l.getLast hne = a := by
    have h2 := List.getLast?_eq_getLast l hne
    rw [h] at h2
    exact (Option.some_inj.mp h2).symm
  intro hmem
  have hsplit := List.dropLast_append_getLast hne
  rw [← hsplit] at hnd
  rcases List.nodup_append.mp hnd with ⟨_, _, hdisj⟩
  exact hdisj hmem (by simp [ha])

/-- C2 amended: `cycle` and `apply_after_approval` preserve the
invariant that every accepted id has a backups entry; `undo_last`
preserves it provided the accepted ids are duplicate-free, and then it
removes both the popped id and its backups entry.  (With duplicated
accepted ids the invariant is not preserved — see the counterexample.) -/
theorem backups_invariant_preserved (hash : Str → Str) (s : OrchState) :
    (∀ props dry, backups_invariant s.world →
        backups_invariant (cycle s props dry).1.world) ∧
      (∀ pid dry, backups_invariant s.world →
        backups_invariant (apply_after_approval hash s pid dry).1.world) ∧
      (backups_invariant s.world → s.world.accepted_patches.Nodup →
        backups_invariant (undo_last s).1.world ∧
        ∀ last2, (undo_last s).2 = some last2 →
          (undo_last s).1.world.accepted_patches = s.world.accepted_patches.dropLast ∧
          last2 ∉ (undo_last s).1.world.accepted_patches ∧
          (undo_last s).1.world.backups last2 = none) := by
  refine ⟨?_, ?_, ?_⟩
  · intro props dry hinv
    unfold cycle
    rcases hcl : cycleLoop props s.pending [] with ⟨pend1, sc, err⟩
    cases err with
    | none => simpa using hinv
    | some e => simpa using hinv
  · intro pid dry hinv
    unfold apply_after_approval
    rcases happ : approveFn s.pending pid with _ | ⟨p, pend1⟩
    · simpa using hinv
    · rcases hsec : findDangerous p.diff with _ | tok
      · rcases hseg : parseSegs p.diff with _ | ⟨seg0, segR⟩
        · simpa [hsec, hseg] using hinv
        · cases dry with
          | true => simpa [hsec, hseg] using hinv
          | false =>
            simp only [hsec, hseg, Bool.false_eq_true, if_false]
            intro id2 hid2
            simp only [List.mem_append, List.mem_singleton] at hid2
            rcases hid2 with hid2 | rfl
            · by_cases heq : id2 = pid
              · subst heq
                simp [mapInsert]
              · simp only [mapInsert, if_neg heq]
                exact hinv id2 hid2
            · simp [mapInsert]
      · simpa [hsec] using hinv
  · intro hinv hnd
    rcases hl : s.world.accepted_patches.getLast? with _ | last
    · unfold undo_last
      rw [hl]
      exact ⟨hinv, by intro last2 h2; cases h2⟩
    · have hnotmem := getLast_not_mem_dropLast s.world.accepted_patches hnd last hl
      unfold undo_last
      rw [hl]
      constructor
      · intro id2 hid2
        have hmem : id2 ∈ s.world.accepted_patches := List.mem_of_mem_dropLast hid2
        have hne2 : id2 ≠ last := by
          intro h2
          subst h2
          exact hnotmem hid2
        simp [mapErase, hne2]
        exact hinv id2 hmem
      · intro last2 h2
        have : last = last2 := Option.some_inj.mp h2
        subst this
        exact ⟨rfl, hnotmem, by simp [mapErase]⟩

/-- Witness world for the amended invariant preservation: one accepted
id with its backups entry. -/
def oneWorld : WorldState :=
  { objectives := [], accepted_patches := [str "x"], cycle := 0,
    backups := fun q => if q = str "x" then some [] else none }

/-- Orchestrator fixture around `oneWorld`. -/
def oneState : OrchState :=
  { pending := [], world := oneWorld, fs := fun _ => none,
    versionLog := [], persisted := none }

/-- Witness for the amended C2 at a concrete duplicate-free state:
undoing removes both the id and its backups entry and keeps the
invariant. -/
theorem backups_invariant_preserved_witness :
    backups_invariant oneWorld ∧ oneWorld.accepted_patches.Nodup ∧
      (backups_invariant (undo_last oneState).1.world ∧
        ∀ last2, (undo_last oneState).2 = some last2 →
          (undo_last oneState).1.world.accepted_patches =
            oneState.world.accepted_patches.dropLast ∧
          last2 ∉ (undo_last oneState).1.world.accepted_patches ∧
          (undo_last oneState).1.world.backups last2 = none) :=
  ⟨by decide, by decide,
   (backups_invariant_preserved (fun c => c) oneState).2.2 (by decide) (by decide)⟩

/-! ### C3: dry-run apply -/

/-- Frame property of the dry-run segment loop: it can only write backup
side-car paths of the touched files. -/
theorem applyLoop_dry_frame (hash : Str → Str) (pid : Str) (cyc : Int) :
    ∀ (segs : List (Str × List Str)) (fs : FS) (recs : List BackupRec)
      (log : List (Str × Str × Str × Int)) (app : List Str) (q : Str),
      (∀ sg ∈ segs, q ≠ bpName sg.1 pid) →
      (applyLoop hash pid true cyc segs fs recs log app).1 q = fs q := by
  intro segs
  induction segs with
  | nil => intro fs recs log app q _; rfl
  | cons sg rest ih =>
    intro fs recs log app q h
    obtain ⟨fname, lines⟩ := sg
    have hq : q ≠ bpName fname pid := h (fname, lines) (by simp)
    have hrest : ∀ sg2 ∈ rest, q ≠ bpName sg2.1 pid := fun sg2 h2 => h sg2 (by simp [h2])
    cases hfs : fs fname with
    | some original =>
      simp only [applyLoop, hfs, if_pos]
      rw [ih _ _ _ _ q hrest]
      simp [FS.write, hq]
    | none =>
      simp only [applyLoop, hfs, if_pos]
      exact ih _ _ _ _ q hrest

/-- A proposal with one ordinary file segment, touching `README.md`. -/
def dryProp : PatchProposal :=
  { id := str "pD"
    title := []
    description := []
    diff := str "--- a/README.md\n+++ b/README.md\n+hello"
    rationale := []
    risk_note := [] }

/-- Fixture around `dryProp` over a tree containing `README.md`. -/
def dryState : OrchState :=
  { pending := [dryProp]
    world := world0
    fs := fun q => if q = str "README.md" then some (str "old") else none
    versionLog := []
    persisted := none }

/-- Counterexample to C3 as stated: a dry-run apply of `dryProp` creates
the backup side-car file for the existing touched file (the backup
capture is not guarded by `dry_run`), so a file under the repository
root is created. -/
theorem apply_dry_run_counterexample :
    dryState.fs (bpName (str "README.md") (str "pD")) = none ∧
      (apply_after_approval (fun c => c) dryState (str "pD") true).1.fs
        (bpName (str "README.md") (str "pD")) = some (str "old") := by
  decide

/-- C3 amended: a dry-run apply on a pending proposal with at least one
file segment leaves the world state, the persisted state, the version
ledger untouched and reports the touched filenames, but the file tree is
unchanged only away from the backup side-car paths of the touched files
(those may be created by the unguarded backup capture). -/
theorem apply_dry_run_amended (hash : Str → Str) (s : OrchState) (pid : Str)
    (p : PatchProposal) (pending1 : List PatchProposal) (seg0 : Str × List Str)
    (segRest : List (Str × List Str))
    (ha : approveFn s.pending pid = some (p, pending1))
    (hsec : findDangerous p.diff = none)
    (hseg : parseSegs p.diff = seg0 :: segRest) :
    (apply_after_approval hash s pid true).1.world = s.world ∧
      (apply_after_approval hash s pid true).1.persisted = s.persisted ∧
      (apply_after_approval hash s pid true).1.versionLog = s.versionLog ∧
      (apply_after_approval hash s pid true).1.pending = pending1 ∧
      (apply_after_approval hash s pid true).2 =
        .ok (str "(dry-run) " ++ joinL (str ", ") ((seg0 :: segRest).map Prod.fst)) ∧
      ∀ q, (∀ sg ∈ seg0 :: segRest, q ≠ bpName sg.1 pid) →
        (apply_after_approval hash s pid true).1.fs q = s.fs q := by
  refine ⟨?_, ?_, ?_, ?_, ?_, ?_⟩
  · simp [apply_after_approval, ha, hsec, hseg]
  · simp [apply_after_approval, ha, hsec, hseg]
  · simp [apply_after_approval, ha, hsec, hseg]
  · simp [apply_after_approval, ha, hsec, hseg]
  · simp [apply_after_approval, ha, hsec, hseg]
  · intro q hq
    have hfs : (apply_after_approval hash s pid true).1.fs =
        (applyLoop hash pid true s.world.cycle (seg0 :: segRest) s.fs [] s.versionLog []).1 := by
      simp [apply_after_approval, ha, hsec, hseg]
    rw [hfs]
    exact applyLoop_dry_frame hash pid s.world.cycle (seg0 :: segRest) s.fs [] s.versionLog [] q hq

/-- Witness for the amended C3 on the concrete `dryState` fixture. -/
theorem apply_dry_run_amended_witness :
    (approveFn dryState.pending (str "pD") = some (dryProp, []) ∧
      findDangerous dryProp.diff = none ∧
      parseSegs dryProp.diff = [(str "README.md", [str "+hello"])]) ∧
      ((apply_after_approval (fun c => c) dryState (str "pD") true).1.world = dryState.world ∧
        (apply_after_approval (fun c => c) dryState (str "pD") true).1.persisted = dryState.persisted ∧
        (apply_after_approval (fun c => c) dryState (str "pD") true).1.versionLog = dryState.versionLog ∧
        (apply_after_approval (fun c => c) dryState (str "pD") true).1.pending = [] ∧
        (apply_after_approval (fun c => c) dryState (str "pD") true).2 =
          .ok (str "(dry-run) " ++ joinL (str ", ")
            ([(str "README.md", [str "+hello"])].map Prod.fst)) ∧
        ∀ q, (∀ sg ∈ [(str "README.md", [str "+hello"])], q ≠ bpName sg.1 (str "pD")) →
          (apply_after_approval (fun c => c) dryState (str "pD") true).1.fs q =
            dryState.fs q) :=
  ⟨⟨by decide, by decide, by decide⟩,
   apply_dry_run_amended (fun c => c) dryState (str "pD") dryProp []
     (str "README.md", [str "+hello"]) [] (by decide) (by decide) (by decide)⟩

/-! ### C1: apply then undo -/

/-- Backup side-car paths are never the empty filename. -/
theorem bpName_ne_nil (f pid : Str) : bpName f pid ≠ [] := by
  have h : str ".backup_" = '.' :: str "backup_" := rfl
  simp [bpName, h]

/-- Two backup side-car paths of the same proposal agree only when the
flattened filenames agree. -/
theorem bpName_inj {f g pid : Str} (h : bpName f pid = bpName g pid) :
    flattenSlash f = flattenSlash g := by
  unfold bpName at h
  simp only [List.append_assoc] at h
  have h2 := List.append_cancel_left h
  exact List.append_cancel_right h2

/-- The backup record captured for one segment, relative to the file
tree seen when the segment is processed. -/
def recOf (pid : Str) (fs : FS) (sg : Str × List Str) : BackupRec :=
  match fs sg.1 with
  | some _ => ⟨sg.1, some (bpName sg.1 pid), true⟩
  | none => ⟨sg.1, none, false⟩

/-- The file field of a captured record is the segment's filename. -/
theorem recOf_file (pid : Str) (fs : FS) (sg : Str × List Str) :
    (recOf pid fs sg).file = sg.1 := by
  unfold recOf
  cases fs sg.1 <;> rfl

/-- Captured records depend only on the tree at the segment's file. -/
theorem recOf_congr (pid : Str) {fs1 fs2 : FS} {sg : Str × List Str}
    (h : fs1 sg.1 = fs2 sg.1) : recOf pid fs1 sg = recOf pid fs2 sg := by
  unfold recOf
  rw [h]

/-- Frame property of the non-dry segment loop: only touched files and
their backup side-car paths can change. -/
theorem applyLoop_frame (hash : Str → Str) (pid : Str) (cyc : Int) :
    ∀ (segs : List (Str × List Str)) (fs : FS) (recs : List BackupRec)
      (log : List (Str × Str × Str × Int)) (app : List Str) (q : Str),
      (∀ sg ∈ segs, q ≠ sg.1 ∧ q ≠ bpName sg.1 pid) →
      (applyLoop hash pid false cyc segs fs recs log app).1 q = fs q := by
  intro segs
  induction segs with
  | nil => intro fs recs log app q _; rfl
  | cons sg rest ih =>
    intro fs recs log app q h
    obtain ⟨fname, lines⟩ := sg
    obtain ⟨hq1, hq2⟩ := h (fname, lines) (by simp)
    have hrest : ∀ sg2 ∈ rest, q ≠ sg2.1 ∧ q ≠ bpName sg2.1 pid :=
      fun sg2 h2 => h sg2 (by simp [h2])
    cases hfs : fs fname with
    | some original =>
      simp only [applyLoop, hfs, Bool.false_eq_true, if_false]
      rw [ih _ _ _ _ q hrest]
      simp [FS.write, hq1, hq2]
    | none =>
      simp only [applyLoop, hfs, Bool.false_eq_true, if_false]
      rw [ih _ _ _ _ q hrest]
      simp [FS.write, hq1]

/-- The records collected by the segment loop are exactly the per-file
captures relative to the tree at loop entry, provided the flattened
touched filenames are duplicate-free and no touched file is a backup
path. -/
theorem applyLoop_recs (hash : Str → Str) (pid : Str) (cyc : Int) (dry : Bool) :
    ∀ (segs : List (Str × List Str)) (fs : FS) (recs : List BackupRec)
      (log : List (Str × Str × Str × Int)) (app : List Str),
      ((segs.map fun sg => flattenSlash sg.1).Nodup) →
      (∀ f ∈ segs.map Prod.fst, ∀ g ∈ segs.map Prod.fst, f ≠ bpName g pid) →
      (applyLoop hash pid dry cyc segs fs recs log app).2.1 =
        recs ++ segs.map (recOf pid fs) := by
  intro segs
  induction segs with
  | nil => intro fs recs log app _ _; simp [applyLoop]
  | cons sg rest ih =>
    intro fs recs log app hflat hnbp
    obtain ⟨fname, lines⟩ := sg
    have hflat2 : (rest.map fun sg2 => flattenSlash sg2.1).Nodup :=
      (List.nodup_cons.mp hflat).2
    have hfnotin : flattenSlash fname ∉ rest.map fun sg2 => flattenSlash sg2.1 :=
      (List.nodup_cons.mp hflat).1
    have hnbp2 : ∀ f ∈ rest.map Prod.fst, ∀ g ∈ rest.map Prod.fst, f ≠ bpName g pid :=
      fun f hf g hg => hnbp f (by simp [hf]) g (by simp [hg])
    have hne_file : ∀ sg2 ∈ rest, sg2.1 ≠ fname := by
      intro sg2 h2 hEq
      exact hfnotin (by
        rw [← hEq]
        exact List.mem_map_of_mem _ h2)
    have hne_bp : ∀ sg2 ∈ rest, sg2.1 ≠ bpName fname pid := by
      intro sg2 h2
      have hm1 : sg2.1 ∈ List.map Prod.fst ((fname, lines) :: rest) := by
        simp only [List.map_cons]
        exact List.mem_cons_of_mem _ (List.mem_map_of_mem _ h2)
      have hm2 : fname ∈ List.map Prod.fst ((fname, lines) :: rest) := by
        simp
      exact hnbp sg2.1 hm1 fname hm2
    cases hfs : fs fname with
    | some original =>
      have hstep : ∀ sg2 ∈ rest,
          (fs.write (bpName fname pid) original) sg2.1 = fs sg2.1 := by
        intro sg2 h2
        simp [FS.write, hne_bp sg2 h2]
      cases dry with
      | true =>
        simp only [applyLoop, hfs, if_true]
        rw [ih _ _ _ _ hflat2 hnbp2]
        rw [List.map_congr_left (fun sg2 h2 => recOf_congr pid (hstep sg2 h2))]
        simp [recOf, hfs]
      | false =>
        simp only [applyLoop, hfs, Bool.false_eq_true, if_false]
        rw [ih _ _ _ _ hflat2 hnbp2]
        have hstep2 : ∀ sg2 ∈ rest,
            ((fs.write (bpName fname pid) original).write fname (reconstruct lines)) sg2.1 =
              fs sg2.1 := by
          intro sg2 h2
          simp [FS.write, hne_bp sg2 h2, hne_file sg2 h2]
        rw [List.map_congr_left (fun sg2 h2 => recOf_congr pid (hstep2 sg2 h2))]
        simp [recOf, hfs]
    | none =>
      cases dry with
      | true =>
        simp only [applyLoop, hfs, if_true]
        rw [ih _ _ _ _ hflat2 hnbp2]
        simp [recOf, hfs]
      | false =>
        simp only [applyLoop, hfs, Bool.false_eq_true, if_false]
        rw [ih _ _ _ _ hflat2 hnbp2]
        have hstep2 : ∀ sg2 ∈ rest,
            (fs.write fname (reconstruct lines)) sg2.1 = fs sg2.1 := by
          intro sg2 h2
          simp [FS.write, hne_file sg2 h2]
        rw [List.map_congr_left (fun sg2 h2 => recOf_congr pid (hstep2 sg2 h2))]
        simp [recOf, hfs]

/-- After the non-dry segment loop, every touched file holds its
reconstructed content, and its backup side-car holds the entry content
of the file — under the same duplicate-freedom assumptions. -/
theorem applyLoop_content (hash : Str → Str) (pid : Str) (cyc : Int) :
    ∀ (segs : List (Str × List Str)) (fs : FS) (recs : List BackupRec)
      (log : List (Str × Str × Str × Int)) (app : List Str),
      ((segs.map fun sg => flattenSlash sg.1).Nodup) →
      (∀ f ∈ segs.map Prod.fst, ∀ g ∈ segs.map Prod.fst, f ≠ bpName g pid) →
      ∀ sg ∈ segs,
        (applyLoop hash pid false cyc segs fs recs log app).1 sg.1 =
            some (reconstruct sg.2) ∧
          ∀ c, fs sg.1 = some c →
            (applyLoop hash pid false cyc segs fs recs log app).1 (bpName sg.1 pid) =
              some c := by
  intro segs
  induction segs with
  | nil => intro fs recs log app _ _ sg hsg; cases hsg
  | cons sg0 rest ih =>
    intro fs recs log app hflat hnbp sg hsg
    obtain ⟨fname, lines⟩ := sg0
    have hflat2 : (rest.map fun sg2 => flattenSlash sg2.1).Nodup :=
      (List.nodup_cons.mp hflat).2
    have hfnotin : flattenSlash fname ∉ rest.map fun sg2 => flattenSlash sg2.1 :=
      (List.nodup_cons.mp hflat).1
    have hnbp2 : ∀ f ∈ rest.map Prod.fst, ∀ g ∈ rest.map Prod.fst, f ≠ bpName g pid :=
      fun f hf g hg => hnbp f (by simp [hf]) g (by simp [hg])
    have hmemf : fname ∈ List.map Prod.fst ((fname, lines) :: rest) := by simp
    have hmemr : ∀ sg2 ∈ rest, sg2.1 ∈ List.map Prod.fst ((fname, lines) :: rest) := by
      intro sg2 h2
      simp only [List.map_cons]
      exact List.mem_cons_of_mem _ (List.mem_map_of_mem _ h2)
    have hne_file : ∀ sg2 ∈ rest, sg2.1 ≠ fname := by
      intro sg2 h2 hEq
      exact hfnotin (by
        rw [← hEq]
        exact List.mem_map_of_mem _ h2)
    have hne_bp : ∀ sg2 ∈ rest, sg2.1 ≠ bpName fname pid :=
      fun sg2 h2 => hnbp sg2.1 (hmemr sg2 h2) fname hmemf
    have hself : fname ≠ bpName fname pid := hnbp fname hmemf fname hmemf
    have hbp_file : ∀ sg2 ∈ rest, fname ≠ sg2.1 ∧ fname ≠ bpName sg2.1 pid :=
      fun sg2 h2 => ⟨Ne.symm (hne_file sg2 h2), hnbp fname hmemf sg2.1 (hmemr sg2 h2)⟩
    have hbpbp : ∀ sg2 ∈ rest,
        bpName fname pid ≠ sg2.1 ∧ bpName fname pid ≠ bpName sg2.1 pid := by
      intro sg2 h2
      refine ⟨Ne.symm (hne_bp sg2 h2), ?_⟩
      intro hEq
      exact hfnotin (by
        rw [bpName_inj hEq]
        exact List.mem_map_of_mem _ h2)
    rcases List.mem_cons.mp hsg with rfl | hsgr
    · cases hfs : fs fname with
      | some original =>
        simp only [applyLoop, hfs, Bool.false_eq_true, if_false]
        constructor
        · rw [applyLoop_frame hash pid cyc rest _ _ _ _ fname hbp_file]
          simp [FS.write]
        · intro c hc
          obtain rfl : original = c := Option.some_inj.mp hc
          rw [applyLoop_frame hash pid cyc rest _ _ _ _ (bpName fname pid) hbpbp]
          simp [FS.write, Ne.symm hself]
      | none =>
        simp only [applyLoop, hfs, Bool.false_eq_true, if_false]
        constructor
        · rw [applyLoop_frame hash pid cyc rest _ _ _ _ fname hbp_file]
          simp [FS.write]
        · intro c hc
          cases hc
    · cases hfs : fs fname with
      | some original =>
        simp only [applyLoop, hfs, Bool.false_eq_true, if_false]
        have hstep : (fs.write (bpName fname pid) original).write fname
            (reconstruct lines) sg.1 = fs sg.1 := by
          simp [FS.write, hne_file sg hsgr, hne_bp sg hsgr]
        obtain ⟨ih1, ih2⟩ := ih _ _ _ _ hflat2 hnbp2 sg hsgr
        exact ⟨ih1, fun c hc => ih2 c (by rw [hstep, hc])⟩
      | none =>
        simp only [applyLoop, hfs, Bool.false_eq_true, if_false]
        have hstep : fs.write fname (reconstruct lines) sg.1 = fs sg.1 := by
          simp [FS.write, hne_file sg hsgr]
        obtain ⟨ih1, ih2⟩ := ih _ _ _ _ hflat2 hnbp2 sg hsgr
        exact ⟨ih1, fun c hc => ih2 c (by rw [hstep, hc])⟩

/-- Frame property of the undo loop: only the recorded files change. -/
theorem undoLoop_frame : ∀ (recs : List BackupRec) (fs : FS) (q : Str),
    (∀ r ∈ recs, q ≠ r.file) → undoLoop recs fs q = fs q := by
  intro recs
  induction recs with
  | nil => intro fs q _; rfl
  | cons r rest ih =>
    intro fs q h
    have hq : q ≠ r.file := h r (by simp)
    have hrest : ∀ r2 ∈ rest, q ≠ r2.file := fun r2 h2 => h r2 (by simp [h2])
    simp only [undoLoop]
    rw [ih _ q hrest]
    by_cases hcond : (r.original_exists && pathTruthy r.path) = true
    · rw [if_pos hcond]
      cases hp : r.path with
      | some pbk =>
        cases hfsp : fs pbk with
        | some content =>
          simp only [hfsp]
          simp [FS.write, hq]
        | none => simp [hfsp]
      | none => rfl
    · rw [if_neg hcond]
      by_cases hdel : (!r.file.isEmpty && (fs r.file).isSome) = true
      · rw [if_pos hdel]
        simp [FS.erase, hq]
      · rw [if_neg hdel]

/-- The backup side-car path is a truthy (non-empty) path. -/
theorem pathTruthy_bp (f pid : Str) : pathTruthy (some (bpName f pid)) = true := by
  have h : bpName f pid ≠ [] := bpName_ne_nil f pid
  unfold pathTruthy
  cases hbp : (bpName f pid).isEmpty with
  | false => rfl
  | true => exact absurd (List.isEmpty_iff.mp hbp) h

/-- Walking the records captured by a non-dry apply restores every
touched file to its pre-apply content (deleting it when it did not
exist), given duplicate-free flattened filenames, no touched file being
a backup path, non-empty filenames, and a tree holding the captured
backup contents. -/
theorem undoLoop_restores (pid : Str) :
    ∀ (segs : List (Str × List Str)) (fs0 fs : FS),
      ((segs.map fun sg => flattenSlash sg.1).Nodup) →
      (∀ f ∈ segs.map Prod.fst, ∀ g ∈ segs.map Prod.fst, f ≠ bpName g pid) →
      (∀ f ∈ segs.map Prod.fst, f ≠ []) →
      (∀ sg ∈ segs, ∀ c, fs0 sg.1 = some c → fs (bpName sg.1 pid) = some c) →
      ∀ sg ∈ segs, undoLoop (segs.map (recOf pid fs0)) fs sg.1 = fs0 sg.1 := by
  intro segs
  induction segs with
  | nil => intro fs0 fs _ _ _ _ sg hsg; cases hsg
  | cons sg0 rest ih =>
    intro fs0 fs hflat hnbp hne hbk sg hsg
    obtain ⟨fname, lines⟩ := sg0
    have hflat2 : (rest.map fun sg2 => flattenSlash sg2.1).Nodup :=
      (List.nodup_cons.mp hflat).2
    have hfnotin : flattenSlash fname ∉ rest.map fun sg2 => flattenSlash sg2.1 :=
      (List.nodup_cons.mp hflat).1
    have hnbp2 : ∀ f ∈ rest.map Prod.fst, ∀ g ∈ rest.map Prod.fst, f ≠ bpName g pid :=
      fun f hf g hg => hnbp f (by simp [hf]) g (by simp [hg])
    have hne2 : ∀ f ∈ rest.map Prod.fst, f ≠ [] := fun f hf => hne f (by simp [hf])
    have hmemf : fname ∈ List.map Prod.fst ((fname, lines) :: rest) := by simp
    have hmemr : ∀ sg2 ∈ rest, sg2.1 ∈ List.map Prod.fst ((fname, lines) :: rest) := by
      intro sg2 h2
      simp only [List.map_cons]
      exact List.mem_cons_of_mem _ (List.mem_map_of_mem _ h2)
    have hne_file : ∀ sg2 ∈ rest, sg2.1 ≠ fname := by
      intro sg2 h2 hEq
      exact hfnotin (by
        rw [← hEq]
        exact List.mem_map_of_mem _ h2)
    have hbp_r : ∀ sg2 ∈ rest, fname ≠ bpName sg2.1 pid :=
      fun sg2 h2 => hnbp fname hmemf sg2.1 (hmemr sg2 h2)
    have hfname_ne : fname ≠ [] := hne fname hmemf
    have hrecfile : ∀ r2 ∈ rest.map (recOf pid fs0), fname ≠ r2.file := by
      intro r2 h2
      obtain ⟨sg2, hsg2, rfl⟩ := List.mem_map.mp h2
      rw [recOf_file]
      exact Ne.symm (hne_file sg2 hsg2)
    cases hfs0 : fs0 fname with
    | some c =>
      have hbp : fs (bpName fname pid) = some c := hbk (fname, lines) (by simp) c hfs0
      have hrec : recOf pid fs0 (fname, lines) =
          ⟨fname, some (bpName fname pid), true⟩ := by
        simp [recOf, hfs0]
      have hfs1 : ∀ q, q ≠ fname →
          (fs.write fname c) q = fs q := by
        intro q hq
        simp [FS.write, hq]
      rcases List.mem_cons.mp hsg with rfl | hsgr
      · simp only [List.map_cons, hrec, undoLoop, pathTruthy_bp, Bool.and_true,
          Bool.and_self, if_pos, hbp]
        rw [undoLoop_frame _ _ fname hrecfile]
        simp [FS.write, hfs0]
      · simp only [List.map_cons, hrec, undoLoop, pathTruthy_bp, Bool.and_true,
          Bool.and_self, if_pos, hbp]
        have hbk2 : ∀ sg2 ∈ rest, ∀ c2, fs0 sg2.1 = some c2 →
            (fs.write fname c) (bpName sg2.1 pid) = some c2 := by
          intro sg2 h2 c2 hc2
          rw [hfs1 _ (Ne.symm (hbp_r sg2 h2))]
          exact hbk sg2 (by simp [h2]) c2 hc2
        exact ih fs0 _ hflat2 hnbp2 hne2 hbk2 sg hsgr
    | none =>
      have hrec : recOf pid fs0 (fname, lines) = ⟨fname, none, false⟩ := by
        simp [recOf, hfs0]
      have hfname_empty : fname.isEmpty = false := by
        cases hI : fname.isEmpty with
        | false => rfl
        | true => exact absurd (List.isEmpty_iff.mp hI) hfname_ne
      rcases List.mem_cons.mp hsg with rfl | hsgr
      · simp only [List.map_cons, hrec, undoLoop, pathTruthy, Bool.and_false,
          Bool.false_eq_true, if_false, hfname_empty, Bool.not_false, Bool.true_and]
        cases hex : (fs fname).isSome with
        | true =>
          rw [if_pos rfl]
          rw [undoLoop_frame _ _ fname hrecfile]
          simp [FS.erase, hfs0]
        | false =>
          rw [if_neg (by simp [hex])]
          rw [undoLoop_frame _ _ fname hrecfile]
          rw [hfs0]
          exact Option.not_isSome_iff_eq_none.mp (by simp [hex])
      · simp only [List.map_cons, hrec, undoLoop, pathTruthy, Bool.and_false,
          Bool.false_eq_true, if_false, hfname_empty, Bool.not_false, Bool.true_and]
        have hfs1 : ∀ q, q ≠ fname →
            (if (fs fname).isSome = true then fs.erase fname else fs) q = fs q := by
          intro q hq
          by_cases hex : (fs fname).isSome = true
          · simp [hex, FS.erase, hq]
          · simp [hex]
        have hbk2 : ∀ sg2 ∈ rest, ∀ c2, fs0 sg2.1 = some c2 →
            (if (fs fname).isSome = true then fs.erase fname else fs)
              (bpName sg2.1 pid) = some c2 := by
          intro sg2 h2 c2 hc2
          rw [hfs1 _ (Ne.symm (hbp_r sg2 h2))]
          exact hbk sg2 (by simp [h2]) c2 hc2
        exact ih fs0 _ hflat2 hnbp2 hne2 hbk2 sg hsgr

/-- The file tree after `undo_last`, when the accepted stack is
non-empty, is the undo loop over the stored records. -/
theorem undo_last_fs (s2 : OrchState) (last : Str)
    (h : s2.world.accepted_patches.getLast? = some last) :
    (undo_last s2).1.fs = undoLoop ((s2.world.backups last).getD []) s2.fs := by
  unfold undo_last
  rw [h]

/-- C1 amended: applying a pending proposal (not dry-run) and then
undoing restores every touched file to exactly its pre-apply content —
and deletes a touched file that did not exist — provided the touched
filenames are pairwise distinct even after the lossy `/` to `_`
flattening used in backup side-car names, no touched filename collides
with a backup side-car path, no touched filename is empty, and no
touched filename is one of the orchestrator-owned bookkeeping files
(state file, changelog, `logs/` ledgers), which the file-tree model
keeps outside the tree.  (Without the flattened-distinctness hypothesis
the roundtrip fails — see the counterexample.) -/
theorem apply_undo_roundtrip (hash : Str → Str) (s : OrchState) (pid : Str)
    (p : PatchProposal) (pending1 : List PatchProposal)
    (ha : approveFn s.pending pid = some (p, pending1))
    (hsec : findDangerous p.diff = none)
    (hflat : ((parseSegs p.diff).map fun sg => flattenSlash sg.1).Nodup)
    (hnbp : ∀ f ∈ (parseSegs p.diff).map Prod.fst,
        ∀ g ∈ (parseSegs p.diff).map Prod.fst, f ≠ bpName g pid)
    (hne : ∀ f ∈ (parseSegs p.diff).map Prod.fst, f ≠ [])
    (_hbook : ∀ f ∈ (parseSegs p.diff).map Prod.fst,
        f ≠ str ".evo_state.json" ∧ f ≠ str "CHANGELOG.md" ∧
          startsWithL (str "logs/") f = false) :
    ∀ f ∈ (parseSegs p.diff).map Prod.fst,
      (undo_last (apply_after_approval hash s pid false).1).1.fs f = s.fs f := by
  rcases hseg : parseSegs p.diff with _ | ⟨seg0, segR⟩
  · intro f hf
    simp at hf
  · rw [hseg] at hflat hnbp hne
    have hfs2 : (apply_after_approval hash s pid false).1.fs =
        (applyLoop hash pid false s.world.cycle (seg0 :: segR) s.fs [] s.versionLog []).1 := by
      simp [apply_after_approval, ha, hsec, hseg]
    have hacc : (apply_after_approval hash s pid false).1.world.accepted_patches =
        s.world.accepted_patches ++ [pid] := by
      simp [apply_after_approval, ha, hsec, hseg]
    have hbk : (apply_after_approval hash s pid false).1.world.backups =
        mapInsert s.world.backups pid
          (applyLoop hash pid false s.world.cycle (seg0 :: segR) s.fs [] s.versionLog []).2.1 := by
      simp [apply_after_approval, ha, hsec, hseg]
    have hlast : (apply_after_approval hash s pid false).1.world.accepted_patches.getLast? =
        some pid := by
      rw [hacc]
      exact List.getLast?_concat _
    have hrecsval : (applyLoop hash pid false s.world.cycle (seg0 :: segR)
        s.fs [] s.versionLog []).2.1 = (seg0 :: segR).map (recOf pid s.fs) := by
      rw [applyLoop_recs hash pid s.world.cycle false (seg0 :: segR)
        s.fs [] s.versionLog [] hflat hnbp]
      simp
    have hundo : (undo_last (apply_after_approval hash s pid false).1).1.fs =
        undoLoop ((seg0 :: segR).map (recOf pid s.fs))
          (applyLoop hash pid false s.world.cycle (seg0 :: segR) s.fs [] s.versionLog []).1 := by
      rw [undo_last_fs _ pid hlast, hbk, hfs2]
      simp [mapInsert, hrecsval]
    rw [hundo]
    have hcontent := applyLoop_content hash pid s.world.cycle (seg0 :: segR)
      s.fs [] s.versionLog [] hflat hnbp
    have hbkhyp : ∀ sg ∈ seg0 :: segR, ∀ c, s.fs sg.1 = some c →
        (applyLoop hash pid false s.world.cycle (seg0 :: segR)
          s.fs [] s.versionLog []).1 (bpName sg.1 pid) = some c :=
      fun sg hsg c hc => (hcontent sg hsg).2 c hc
    have hrestore := undoLoop_restores pid (seg0 :: segR) s.fs
      (applyLoop hash pid false s.world.cycle (seg0 :: segR) s.fs [] s.versionLog []).1
      hflat hnbp hne hbkhyp
    intro f hf
    obtain ⟨sg, hsgmem, rfl⟩ := List.mem_map.mp hf
    exact hrestore sg hsgmem

/-- A proposal whose diff touches `A.md` twice, in two segments. -/
def dupSegProp : PatchProposal :=
  { id := str "pC"
    title := []
    description := []
    diff := str "+++ b/A.md\n+one\n+++ b/A.md\n+two"
    rationale := []
    risk_note := [] }

/-- Fixture around `dupSegProp` over a tree where `A.md` holds `old`. -/
def dupSegState : OrchState :=
  { pending := [dupSegProp]
    world := world0
    fs := fun q => if q = str "A.md" then some (str "old") else none
    versionLog := []
    persisted := none }

/-- Counterexample to C1 as stated: applying `dupSegProp` (two segments
for the same file share one backup side-car, so the second capture
overwrites the true pre-apply backup) and undoing leaves `A.md` holding
the intermediate content `one` instead of its pre-apply content
`old`. -/
theorem apply_undo_roundtrip_counterexample :
    dupSegState.fs (str "A.md") = some (str "old") ∧
      (undo_last (apply_after_approval (fun c => c) dupSegState (str "pC") false).1).1.fs
          (str "A.md") = some (str "one\n") := by
  decide

/-- A proposal touching an existing file and a missing file, as in the
specification's round-trip scenario. -/
def rtProp : PatchProposal :=
  { id := str "pR"
    title := []
    description := []
    diff := str "--- a/A.md\n+++ b/A.md\n-old\n+new\n--- a/B.md\n+++ b/B.md\n+fresh"
    rationale := []
    risk_note := [] }

/-- Fixture around `rtProp`: `A.md` exists with content `old`, `B.md`
does not exist. -/
def rtState : OrchState :=
  { pending := [rtProp]
    world := world0
    fs := fun q => if q = str "A.md" then some (str "old") else none
    versionLog := []
    persisted := none }

/-- Witness for the amended C1: apply then undo on `rtProp` restores
`A.md` to `old` and deletes the created `B.md`. -/
theorem apply_undo_roundtrip_witness :
    (approveFn rtState.pending (str "pR") = some (rtProp, []) ∧
      findDangerous rtProp.diff = none ∧
      ((parseSegs rtProp.diff).map fun sg => flattenSlash sg.1).Nodup ∧
      (∀ f ∈ (parseSegs rtProp.diff).map Prod.fst,
        ∀ g ∈ (parseSegs rtProp.diff).map Prod.fst, f ≠ bpName g (str "pR"))) ∧
      ∀ f ∈ (parseSegs rtProp.diff).map Prod.fst,
        (undo_last (apply_after_approval (fun c => c) rtState (str "pR") false).1).1.fs f =
          rtState.fs f :=
  ⟨⟨by decide, by decide, by decide, by decide⟩,
   apply_undo_roundtrip (fun c => c) rtState (str "pR") rtProp []
     (by decide) (by decide) (by decide) (by decide) (by decide) (by decide)⟩

end Evo
